import Mathlib

/-!
Verification of the Poisson expected-value core of `ev_poisson.py`
(`calculate_poisson_probabilities`, `calculate_game_probabilities`,
`calculate_expected_value`) against its specification.  Python floats are
modelled by real numbers, Python dicts built by insertion loops by
association lists in insertion order, and Python exceptions by `Except`.
-/

open Finset Filter Topology

/-- Model of `scipy.stats.poisson.pmf(r, lam)`: the Poisson probability mass
function `lam ^ r * exp (-lam) / r!` (for a non-negative rate `lam` this is
exactly what the library computes). -/
noncomputable def poisson_pmf (lam : ℝ) (r : ℕ) : ℝ :=
  lam ^ r * Real.exp (-lam) / r.factorial

/-- `calculate_poisson_probabilities(team_avg, opponent_avg, max_runs=15)` from
`src/ev_poisson.py`: blends `expected_runs = (team_avg + opponent_avg) / 2` and
builds the dict `{runs: poisson.pmf(runs, expected_runs)}` for
`runs in range(max_runs + 1)`, in insertion order. -/
noncomputable def calculate_poisson_probabilities (team_avg opponent_avg : ℝ)
    (max_runs : ℕ) : List (ℕ × ℝ) :=
  let expected_runs := (team_avg + opponent_avg) / 2
  (List.range (max_runs + 1)).map fun runs => (runs, poisson_pmf expected_runs runs)

/-- Kinds of Python runtime errors the embedded code can surface. -/
inductive PyError where
  | zeroDivisionError
  | invalidArgument
  deriving DecidableEq

/-- `calculate_expected_value(probability, odds, bet_amount=100)` from
`src/ev_poisson.py`.  The `else` branch divides by `abs(odds)`; in Python a
float division by zero raises `ZeroDivisionError`, which the embedding makes
explicit in the `Except` result. -/
noncomputable def calculate_expected_value (probability odds bet_amount : ℝ) :
    Except PyError ℝ :=
  if odds > 0 then
    Except.ok (probability * (bet_amount * (odds / 100)) - (1 - probability) * bet_amount)
  else if |odds| = 0 then
    Except.error PyError.zeroDivisionError
  else
    Except.ok (probability * (bet_amount * (100 / |odds|)) - (1 - probability) * bet_amount)

/-- Result record of `calculate_game_probabilities`. -/
structure GameProbabilities where
  home_win_prob : ℝ
  away_win_prob : ℝ
  tie_prob : ℝ
  home_expected_runs : ℝ
  away_expected_runs : ℝ
  total_expected_runs : ℝ
  total_runs_probs : List (ℕ × ℝ)

/-- `calculate_game_probabilities(home_team_avg, away_team_avg, home_allowed_avg,
away_allowed_avg)` from `src/ev_poisson.py`: blended expected rates, two
Poisson vectors over `[0, 15]`, a nested accumulation loop for
win/loss/tie probabilities, and a convolution loop for the total-runs dict.
`away_runs = total - home_runs` is computed in `ℤ`, as Python does. -/
noncomputable def calculate_game_probabilities
    (home_team_avg away_team_avg home_allowed_avg away_allowed_avg : ℝ) :
    GameProbabilities :=
  let home_expected := (home_team_avg + away_allowed_avg) / 2
  let away_expected := (away_team_avg + home_allowed_avg) / 2
  let max_runs := 15
  let home_probs := (List.range (max_runs + 1)).map fun i => poisson_pmf home_expected i
  let away_probs := (List.range (max_runs + 1)).map fun i => poisson_pmf away_expected i
  let wins :=
    (List.range (max_runs + 1)).foldl (fun acc home_runs =>
      (List.range (max_runs + 1)).foldl (fun acc2 away_runs =>
        let prob := home_probs.getD home_runs 0 * away_probs.getD away_runs 0
        if home_runs > away_runs then (acc2.1 + prob, acc2.2.1, acc2.2.2)
        else if away_runs > home_runs then (acc2.1, acc2.2.1 + prob, acc2.2.2)
        else (acc2.1, acc2.2.1, acc2.2.2 + prob)) acc)
      ((0 : ℝ), (0 : ℝ), (0 : ℝ))
  let total_runs_probs :=
    (List.range (max_runs * 2 + 1)).map fun total =>
      (total,
        (List.range (min (total + 1) (max_runs + 1))).foldl
          (fun (total_prob : ℝ) (home_runs : ℕ) =>
          let away_runs : ℤ := (total : ℤ) - (home_runs : ℤ)
          if 0 ≤ away_runs ∧ away_runs ≤ (max_runs : ℤ) then
            total_prob + home_probs.getD home_runs 0 * away_probs.getD away_runs.toNat 0
          else total_prob) (0 : ℝ))
  { home_win_prob := wins.1
    away_win_prob := wins.2.1
    tie_prob := wins.2.2
    home_expected_runs := home_expected
    away_expected_runs := away_expected
    total_expected_runs := home_expected + away_expected
    total_runs_probs := total_runs_probs }

theorem lookup_append (r : ℕ) : ∀ (l₁ l₂ : List (ℕ × ℝ)),
    (l₁ ++ l₂).lookup r = (l₁.lookup r).or (l₂.lookup r)
  | [], l₂ => by simp [List.lookup]
  | (k, v) :: t, l₂ => by
    by_cases h : r = k
    · simp [List.lookup, h]
    · simp [List.lookup, beq_false_of_ne h, lookup_append r t l₂]

theorem lookup_map_range (f : ℕ → ℝ) : ∀ (n r : ℕ),
    ((List.range n).map fun i => (i, f i)).lookup r
      = if r < n then some (f r) else none
  | 0, r => by simp
  | n + 1, r => by
    rw [List.range_succ, List.map_append, lookup_append]
    rcases lt_trichotomy r n with h | h | h
    · simp [lookup_map_range f n r, h, Nat.lt_succ_of_lt h]
    · subst h
      simp [lookup_map_range f r r, List.lookup]
    · have h1 : ¬r < n := by omega
      have h2 : ¬r < n + 1 := by omega
      have h3 : ¬r = n := by omega
      simp [lookup_map_range f n r, h1, h2, List.lookup, beq_false_of_ne h3]

theorem sum_map_range (f : ℕ → ℝ) : ∀ n : ℕ,
    ((List.range n).map f).sum = ∑ i in Finset.range n, f i
  | 0 => by simp
  | n + 1 => by
    rw [List.range_succ, List.map_append, List.sum_append, Finset.sum_range_succ,
      sum_map_range f n]
    simp

theorem foldl_add_eq_sum (f : ℕ → ℝ) : ∀ (l : List ℕ) (a : ℝ),
    l.foldl (fun s x => s + f x) a = a + (l.map f).sum
  | [], a => by simp
  | x :: t, a => by
    rw [List.foldl_cons, foldl_add_eq_sum f t (a + f x), List.map_cons, List.sum_cons]
    ring

theorem foldl_triple_eq_sum (f g k : ℕ → ℝ) : ∀ (l : List ℕ) (a b c : ℝ),
    l.foldl (fun acc x => (acc.1 + f x, acc.2.1 + g x, acc.2.2 + k x)) (a, b, c)
      = (a + (l.map f).sum, b + (l.map g).sum, c + (l.map k).sum)
  | [], a, b, c => by simp
  | x :: t, a, b, c => by
    rw [List.foldl_cons]
    rw [foldl_triple_eq_sum f g k t (a + f x) (b + g x) (c + k x)]
    simp only [List.map_cons, List.sum_cons, Prod.mk.injEq]
    refine ⟨by ring, by ring, by ring⟩

theorem getD_map_range (f : ℕ → ℝ) {n i : ℕ} (h : i < n) :
    ((List.range n).map f).getD i 0 = f i := by
  rw [List.getD_eq_getElem?_getD]
  simp [List.getElem?_map, List.getElem?_range, h]

theorem wins_step_eq (P : ℕ → ℕ → ℝ) (h : ℕ) :
    (fun (acc2 : ℝ × ℝ × ℝ) (a : ℕ) =>
        let prob := P h a
        if h > a then (acc2.1 + prob, acc2.2.1, acc2.2.2)
        else if a > h then (acc2.1, acc2.2.1 + prob, acc2.2.2)
        else (acc2.1, acc2.2.1, acc2.2.2 + prob))
      = fun acc2 a =>
        (acc2.1 + (if a < h then P h a else 0),
          acc2.2.1 + (if h < a then P h a else 0),
          acc2.2.2 + (if h = a then P h a else 0)) := by
  funext acc2 a
  dsimp only
  rcases lt_trichotomy a h with h1 | h1 | h1
  · rw [if_pos h1, if_pos h1, if_neg (by omega), if_neg (by omega)]
    simp
  · rw [if_neg (by omega), if_neg (by omega), if_neg (by omega), if_neg (by omega),
      if_pos h1.symm]
    simp
  · rw [if_neg (by omega), if_pos h1, if_neg (by omega), if_pos h1, if_neg (by omega)]
    simp

theorem game_wins_eq (P : ℕ → ℕ → ℝ) (n : ℕ) :
    ((List.range n).foldl (fun acc home_runs =>
        (List.range n).foldl (fun acc2 away_runs =>
          let prob := P home_runs away_runs
          if home_runs > away_runs then (acc2.1 + prob, acc2.2.1, acc2.2.2)
          else if away_runs > home_runs then (acc2.1, acc2.2.1 + prob, acc2.2.2)
          else (acc2.1, acc2.2.1, acc2.2.2 + prob)) acc)
      ((0 : ℝ), (0 : ℝ), (0 : ℝ)))
      = (∑ h in Finset.range n, ∑ a in Finset.range n, if a < h then P h a else 0,
          ∑ h in Finset.range n, ∑ a in Finset.range n, if h < a then P h a else 0,
          ∑ h in Finset.range n, ∑ a in Finset.range n, if h = a then P h a else 0) := by
  have hbody : (fun (acc : ℝ × ℝ × ℝ) (home_runs : ℕ) =>
      (List.range n).foldl (fun acc2 away_runs =>
        let prob := P home_runs away_runs
        if home_runs > away_runs then (acc2.1 + prob, acc2.2.1, acc2.2.2)
        else if away_runs > home_runs then (acc2.1, acc2.2.1 + prob, acc2.2.2)
        else (acc2.1, acc2.2.1, acc2.2.2 + prob)) acc)
      = fun acc home_runs =>
        (acc.1 + ∑ a in Finset.range n, (if a < home_runs then P home_runs a else 0),
          acc.2.1 + ∑ a in Finset.range n, (if home_runs < a then P home_runs a else 0),
          acc.2.2 + ∑ a in Finset.range n, (if home_runs = a then P home_runs a else 0)) := by
    funext acc home_runs
    obtain ⟨x, y, z⟩ := acc
    rw [wins_step_eq P home_runs, foldl_triple_eq_sum]
    rw [sum_map_range, sum_map_range, sum_map_range]
  rw [hbody, foldl_triple_eq_sum]
  rw [sum_map_range, sum_map_range, sum_map_range]
  simp

/-- The `home_expected_runs` and `away_expected_runs` fields of
`calculate_game_probabilities`. -/
theorem game_expected_runs_eq (ha aa hal aal : ℝ) :
    (calculate_game_probabilities ha aa hal aal).home_expected_runs = (ha + aal) / 2 ∧
      (calculate_game_probabilities ha aa hal aal).away_expected_runs = (aa + hal) / 2 ∧
      (calculate_game_probabilities ha aa hal aal).total_expected_runs
        = (ha + aal) / 2 + (aa + hal) / 2 := by
  refine ⟨?_, ?_, ?_⟩ <;> rw [calculate_game_probabilities]

/-- The three outcome accumulators of `calculate_game_probabilities`, as double
sums over the truncated support. -/
theorem game_win_probs_eq (ha aa hal aal : ℝ) :
    (calculate_game_probabilities ha aa hal aal).home_win_prob
        = (∑ h in Finset.range 16, ∑ a in Finset.range 16,
            if a < h then poisson_pmf ((ha + aal) / 2) h * poisson_pmf ((aa + hal) / 2) a
            else 0) ∧
      (calculate_game_probabilities ha aa hal aal).away_win_prob
        = (∑ h in Finset.range 16, ∑ a in Finset.range 16,
            if h < a then poisson_pmf ((ha + aal) / 2) h * poisson_pmf ((aa + hal) / 2) a
            else 0) ∧
      (calculate_game_probabilities ha aa hal aal).tie_prob
        = (∑ h in Finset.range 16, ∑ a in Finset.range 16,
            if h = a then poisson_pmf ((ha + aal) / 2) h * poisson_pmf ((aa + hal) / 2) a
            else 0) := by
  have hcongr : ∀ (c : ℕ → ℕ → Prop) (_ : ∀ h a, Decidable (c h a)),
      (∑ h in Finset.range 16, ∑ a in Finset.range 16,
        if c h a then
          ((List.range 16).map fun i => poisson_pmf ((ha + aal) / 2) i).getD h 0 *
            ((List.range 16).map fun i => poisson_pmf ((aa + hal) / 2) i).getD a 0
        else 0)
      = ∑ h in Finset.range 16, ∑ a in Finset.range 16,
          if c h a then poisson_pmf ((ha + aal) / 2) h * poisson_pmf ((aa + hal) / 2) a
          else 0 := by
    intro c _
    refine Finset.sum_congr rfl fun h hh => Finset.sum_congr rfl fun a haa => ?_
    rw [getD_map_range _ (Finset.mem_range.mp hh), getD_map_range _ (Finset.mem_range.mp haa)]
  rw [calculate_game_probabilities]
  simp only
  rw [game_wins_eq (fun h a =>
    ((List.range (15 + 1)).map fun i => poisson_pmf ((ha + aal) / 2) i).getD h 0 *
      ((List.range (15 + 1)).map fun i => poisson_pmf ((aa + hal) / 2) i).getD a 0) (15 + 1)]
  refine ⟨?_, ?_, ?_⟩
  · exact hcongr (fun h a => a < h) (by infer_instance)
  · exact hcongr (fun h a => h < a) (by infer_instance)
  · exact hcongr (fun h a => h = a) (by infer_instance)

theorem total_step_eq (t n : ℕ) (hp ap : List ℝ) :
    (fun (total_prob : ℝ) (home_runs : ℕ) =>
        if 0 ≤ (t : ℤ) - (home_runs : ℤ) ∧ (t : ℤ) - (home_runs : ℤ) ≤ (n : ℤ) then
          total_prob + hp.getD home_runs 0 * ap.getD ((t : ℤ) - (home_runs : ℤ)).toNat 0
        else total_prob)
      = fun (total_prob : ℝ) (home_runs : ℕ) =>
        total_prob +
          (if 0 ≤ (t : ℤ) - (home_runs : ℤ) ∧ (t : ℤ) - (home_runs : ℤ) ≤ (n : ℤ) then
            hp.getD home_runs 0 * ap.getD ((t : ℤ) - (home_runs : ℤ)).toNat 0
          else 0) := by
  funext total_prob home_runs
  dsimp only
  split_ifs <;> simp

theorem conv_sum_eq (p q : ℕ → ℝ) (t n : ℕ) :
    (∑ hr in Finset.range (min (t + 1) (n + 1)),
        (if 0 ≤ (t : ℤ) - (hr : ℤ) ∧ (t : ℤ) - (hr : ℤ) ≤ (n : ℤ) then
          ((List.range (n + 1)).map p).getD hr 0 *
            ((List.range (n + 1)).map q).getD ((t : ℤ) - (hr : ℤ)).toNat 0
        else 0))
      = ∑ h in (Finset.range (n + 1)).filter (fun h => h ≤ t ∧ t - h ≤ n),
          p h * q (t - h) := by
  rw [Finset.sum_filter]
  have hsub : Finset.range (min (t + 1) (n + 1)) ⊆ Finset.range (n + 1) := by
    intro x hx
    simp only [Finset.mem_range] at hx ⊢
    omega
  have hvan : ∀ x ∈ Finset.range (n + 1), x ∉ Finset.range (min (t + 1) (n + 1)) →
      (if 0 ≤ (t : ℤ) - (x : ℤ) ∧ (t : ℤ) - (x : ℤ) ≤ (n : ℤ) then
        ((List.range (n + 1)).map p).getD x 0 *
          ((List.range (n + 1)).map q).getD ((t : ℤ) - (x : ℤ)).toNat 0
      else 0) = 0 := by
    intro x hx hnx
    simp only [Finset.mem_range] at hx hnx
    rw [if_neg]
    omega
  rw [Finset.sum_subset hsub hvan]
  refine Finset.sum_congr rfl fun x hx => ?_
  simp only [Finset.mem_range] at hx
  by_cases hc : x ≤ t ∧ t - x ≤ n
  · rw [if_pos (by omega), if_pos hc]
    have htn : ((t : ℤ) - (x : ℤ)).toNat = t - x := by omega
    rw [htn, getD_map_range p (by omega), getD_map_range q (by omega)]
  · rw [if_neg (by omega), if_neg hc]

/-- The `total_runs_probs` dict of `calculate_game_probabilities`: keys are
`0..30` in order and each value is the truncated convolution sum. -/
theorem game_total_runs_eq (ha aa hal aal : ℝ) :
    (calculate_game_probabilities ha aa hal aal).total_runs_probs.map Prod.fst
        = List.range 31 ∧
      ∀ t : ℕ, t < 31 →
        (calculate_game_probabilities ha aa hal aal).total_runs_probs.lookup t
          = some (∑ h in (Finset.range 16).filter (fun h => h ≤ t ∧ t - h ≤ 15),
              poisson_pmf ((ha + aal) / 2) h * poisson_pmf ((aa + hal) / 2) (t - h)) := by
  constructor
  · rw [calculate_game_probabilities]
    simp only
    rw [List.map_map]
    simp [Function.comp_def]
  · intro t ht
    rw [calculate_game_probabilities]
    simp only
    rw [lookup_map_range, if_pos (show t < 15 * 2 + 1 by omega)]
    rw [total_step_eq t 15, foldl_add_eq_sum, sum_map_range, zero_add]
    rw [conv_sum_eq (fun i => poisson_pmf ((ha + aal) / 2) i)
      (fun i => poisson_pmf ((aa + hal) / 2) i) t 15]

theorem sum_ite_product (f : ℕ × ℕ → ℝ) (c : ℕ × ℕ → Prop) [DecidablePred c]
    (s t : Finset ℕ) :
    ∑ pr in (s ×ˢ t).filter c, f pr
      = ∑ h in s, ∑ a in t, if c (h, a) then f (h, a) else 0 := by
  rw [Finset.sum_filter, Finset.sum_product]

/-- C2: `calculate_game_probabilities` blends each side's scoring rate with the
opponent's allowed rate, and accumulates `home_win_prob`, `away_win_prob` and
`tie_prob` as sums of `p_home(h) * p_away(a)` over the full cross product of
`[0,15] × [0,15]`, split by `h > a`, `a > h`, `h = a`. -/
theorem game_probabilities_win_loss_tie (ha aa hal aal : ℝ) :
    (calculate_game_probabilities ha aa hal aal).home_expected_runs = (ha + aal) / 2 ∧
      (calculate_game_probabilities ha aa hal aal).away_expected_runs = (aa + hal) / 2 ∧
      (calculate_game_probabilities ha aa hal aal).home_win_prob
        = (∑ pr in (Finset.range 16 ×ˢ Finset.range 16).filter (fun pr => pr.2 < pr.1),
            poisson_pmf ((ha + aal) / 2) pr.1 * poisson_pmf ((aa + hal) / 2) pr.2) ∧
      (calculate_game_probabilities ha aa hal aal).away_win_prob
        = (∑ pr in (Finset.range 16 ×ˢ Finset.range 16).filter (fun pr => pr.1 < pr.2),
            poisson_pmf ((ha + aal) / 2) pr.1 * poisson_pmf ((aa + hal) / 2) pr.2) ∧
      (calculate_game_probabilities ha aa hal aal).tie_prob
        = (∑ pr in (Finset.range 16 ×ˢ Finset.range 16).filter (fun pr => pr.1 = pr.2),
            poisson_pmf ((ha + aal) / 2) pr.1 * poisson_pmf ((aa + hal) / 2) pr.2) := by
  obtain ⟨he1, he2, _⟩ := game_expected_runs_eq ha aa hal aal
  obtain ⟨hw, haw, htie⟩ := game_win_probs_eq ha aa hal aal
  refine ⟨he1, he2, ?_, ?_, ?_⟩
  · rw [hw, sum_ite_product]
  · rw [haw, sum_ite_product]
  · rw [htie, sum_ite_product]

/-- C4: the `total_runs_probs` mapping has domain exactly `[0, 30]` and sends
each total `t` to the convolution sum of `p_home(h) * p_away(t - h)` over all
`h ∈ [0, 15]` with `0 ≤ t - h ≤ 15`. -/
theorem total_runs_probs_is_convolution (ha aa hal aal : ℝ) (t : ℕ) (ht : t ≤ 30) :
    (calculate_game_probabilities ha aa hal aal).total_runs_probs.map Prod.fst
        = List.range 31 ∧
      (calculate_game_probabilities ha aa hal aal).total_runs_probs.lookup t
        = some (∑ h in (Finset.range 16).filter (fun h => h ≤ t ∧ t - h ≤ 15),
            poisson_pmf ((ha + aal) / 2) h * poisson_pmf ((aa + hal) / 2) (t - h)) := by
  obtain ⟨hkeys, hval⟩ := game_total_runs_eq ha aa hal aal
  exact ⟨hkeys, hval t (by omega)⟩

/-- Witness for C4 at `(5, 5, 5, 5)` and `t = 10`. -/
theorem total_runs_probs_is_convolution_witness :
    (10 : ℕ) ≤ 30 ∧
      ((calculate_game_probabilities 5 5 5 5).total_runs_probs.map Prod.fst
          = List.range 31 ∧
        (calculate_game_probabilities 5 5 5 5).total_runs_probs.lookup 10
          = some (∑ h in (Finset.range 16).filter (fun h => h ≤ 10 ∧ 10 - h ≤ 15),
              poisson_pmf (((5 : ℝ) + 5) / 2) h *
                poisson_pmf (((5 : ℝ) + 5) / 2) (10 - h))) :=
  ⟨by decide, total_runs_probs_is_convolution 5 5 5 5 10 (by decide)⟩

/-- C1: `calculate_poisson_probabilities` returns exactly the truncated,
unnormalized Poisson probability masses `lam ^ r * exp (-lam) / r!` at the
blended rate `lam = (team_avg + opponent_avg) / 2`, with domain `[0, max_runs]`;
when `lam = 0` the mass is `1` at `0` and `0` at every `r ≥ 1`. -/
theorem run_distribution_is_truncated_poisson_pmf
    (team_avg opponent_avg : ℝ) (max_runs r : ℕ) (hr : r ≤ max_runs) :
    (calculate_poisson_probabilities team_avg opponent_avg max_runs).lookup r
        = some (((team_avg + opponent_avg) / 2) ^ r *
            Real.exp (-((team_avg + opponent_avg) / 2)) / r.factorial) ∧
      (calculate_poisson_probabilities team_avg opponent_avg max_runs).map Prod.fst
        = List.range (max_runs + 1) ∧
      ((team_avg + opponent_avg) / 2 = 0 →
        (calculate_poisson_probabilities team_avg opponent_avg max_runs).lookup r
          = some (if r = 0 then 1 else 0)) := by
  have hlt : r < max_runs + 1 := Nat.lt_succ_of_le hr
  have hmain : (calculate_poisson_probabilities team_avg opponent_avg max_runs).lookup r
      = some (poisson_pmf ((team_avg + opponent_avg) / 2) r) := by
    rw [calculate_poisson_probabilities, lookup_map_range, if_pos hlt]
  refine ⟨by rw [hmain, poisson_pmf], ?_, ?_⟩
  · simp [calculate_poisson_probabilities, List.map_map, Function.comp_def]
  · intro h0
    rw [hmain, h0, poisson_pmf]
    rcases Nat.eq_zero_or_pos r with h | h
    · subst h; simp
    · rw [if_neg (by omega), zero_pow (by omega)]
      simp

/-- Witness for C1 at `team_avg = 5`, `opponent_avg = 5`, `max_runs = 15`,
`r = 0`. -/
theorem run_distribution_is_truncated_poisson_pmf_witness :
    (0 : ℕ) ≤ 15 ∧
      ((calculate_poisson_probabilities 5 5 15).lookup 0
          = some ((((5 : ℝ) + 5) / 2) ^ (0 : ℕ) *
              Real.exp (-(((5 : ℝ) + 5) / 2)) / Nat.factorial 0) ∧
        (calculate_poisson_probabilities 5 5 15).map Prod.fst = List.range 16 ∧
        (((5 : ℝ) + 5) / 2 = 0 →
          (calculate_poisson_probabilities 5 5 15).lookup 0
            = some (if (0 : ℕ) = 0 then 1 else 0))) :=
  ⟨by decide, run_distribution_is_truncated_poisson_pmf 5 5 15 0 (by decide)⟩

/-- C3: for nonzero odds, `calculate_expected_value` returns
`p * payout - (1 - p) * stake`, with `payout = stake * odds / 100` for positive
odds and `payout = stake * 100 / |odds|` for negative odds; in particular a
fair coin at even odds has expected value exactly `0`. -/
theorem expected_value_formula (p odds stake : ℝ) (h : odds ≠ 0) :
    (0 < odds → calculate_expected_value p odds stake
        = Except.ok (p * (stake * odds / 100) - (1 - p) * stake)) ∧
      (odds < 0 → calculate_expected_value p odds stake
        = Except.ok (p * (stake * 100 / |odds|) - (1 - p) * stake)) ∧
      calculate_expected_value 0.5 100 100 = Except.ok 0 := by
  refine ⟨fun hpos => ?_, fun hneg => ?_, ?_⟩
  · rw [calculate_expected_value, if_pos hpos]
    congr 1
    ring
  · rw [calculate_expected_value, if_neg (by linarith),
      if_neg (fun hc => h (abs_eq_zero.mp hc))]
    congr 1
    ring
  · rw [calculate_expected_value, if_pos (by norm_num)]
    congr 1
    norm_num

/-- Witness for C3 at `p = 0.5`, `odds = 100`, `stake = 100`. -/
theorem expected_value_formula_witness :
    (100 : ℝ) ≠ 0 ∧
      ((0 < (100 : ℝ) → calculate_expected_value 0.5 100 100
          = Except.ok (0.5 * ((100 : ℝ) * 100 / 100) - (1 - 0.5) * 100)) ∧
        ((100 : ℝ) < 0 → calculate_expected_value 0.5 100 100
          = Except.ok (0.5 * ((100 : ℝ) * 100 / |(100 : ℝ)|) - (1 - 0.5) * 100)) ∧
        calculate_expected_value 0.5 100 100 = Except.ok 0) :=
  ⟨by norm_num, expected_value_formula 0.5 100 100 (by norm_num)⟩

/-- C5: evaluating the code at `probability = 0.5`, `odds = 0`, `stake = 100`:
the zero odds fall into the negative-odds branch and `100 / abs(0)` raises
`ZeroDivisionError`, not the `InvalidArgument` error the specification
prescribes. -/
theorem expected_value_at_zero_odds :
    calculate_expected_value 0.5 0 100 = Except.error PyError.zeroDivisionError ∧
      calculate_expected_value 0.5 0 100 ≠ Except.error PyError.invalidArgument := by
  have h : calculate_expected_value 0.5 0 100 = Except.error PyError.zeroDivisionError := by
    rw [calculate_expected_value, if_neg (by norm_num), if_pos (by norm_num)]
  exact ⟨h, by simp [h]⟩

/-- C6: evaluating the code at `team_avg = -1`, `opponent_avg = 5`,
`max_runs = 15`: no validation occurs; the negative rate is silently blended to
`((-1) + 5) / 2 = 2` and the call returns the same dict as the valid input
`(2, 2, 15)`, with mass `exp (-2)` at `0` runs. -/
theorem run_distribution_at_negative_input :
    calculate_poisson_probabilities (-1) 5 15 = calculate_poisson_probabilities 2 2 15 ∧
      (calculate_poisson_probabilities (-1) 5 15).lookup 0 = some (Real.exp (-2)) := by
  constructor
  · rw [calculate_poisson_probabilities, calculate_poisson_probabilities]
    norm_num
  · rw [calculate_poisson_probabilities, lookup_map_range, if_pos (by omega)]
    rw [poisson_pmf]
    norm_num

theorem total_fold_eq (p q : ℕ → ℝ) (t : ℕ) :
    (List.range (min (t + 1) (15 + 1))).foldl
        (fun (total_prob : ℝ) (home_runs : ℕ) =>
          if 0 ≤ (t : ℤ) - (home_runs : ℤ) ∧ (t : ℤ) - (home_runs : ℤ) ≤ ((15 : ℕ) : ℤ) then
            total_prob + ((List.range (15 + 1)).map p).getD home_runs 0 *
              ((List.range (15 + 1)).map q).getD ((t : ℤ) - (home_runs : ℤ)).toNat 0
          else total_prob) 0
      = ∑ h in (Finset.range 16).filter (fun h => h ≤ t ∧ t - h ≤ 15), p h * q (t - h) := by
  rw [total_step_eq t 15, foldl_add_eq_sum, sum_map_range, zero_add]
  exact conv_sum_eq p q t 15

/-- The sum of all values of the `total_runs_probs` dict, as a double sum. -/
theorem game_total_values_sum (ha aa hal aal : ℝ) :
    ((calculate_game_probabilities ha aa hal aal).total_runs_probs.map Prod.snd).sum
      = ∑ t in Finset.range 31,
          ∑ h in (Finset.range 16).filter (fun h => h ≤ t ∧ t - h ≤ 15),
            poisson_pmf ((ha + aal) / 2) h * poisson_pmf ((aa + hal) / 2) (t - h) := by
  rw [calculate_game_probabilities]
  simp only
  rw [List.map_map]
  simp only [Function.comp_def]
  rw [sum_map_range]
  refine Finset.sum_congr (by norm_num) fun t ht => ?_
  exact total_fold_eq _ _ t

theorem conv_total_eq (p q : ℕ → ℝ) :
    (∑ t in Finset.range 31,
        ∑ h in (Finset.range 16).filter (fun h => h ≤ t ∧ t - h ≤ 15), p h * q (t - h))
      = ∑ h in Finset.range 16, ∑ a in Finset.range 16, p h * q a := by
  calc (∑ t in Finset.range 31,
          ∑ h in (Finset.range 16).filter (fun h => h ≤ t ∧ t - h ≤ 15), p h * q (t - h))
      = ∑ t in Finset.range 31, ∑ h in Finset.range 16,
          if h ≤ t ∧ t - h ≤ 15 then p h * q (t - h) else 0 :=
        Finset.sum_congr rfl fun t _ => Finset.sum_filter _ _
    _ = ∑ h in Finset.range 16, ∑ t in Finset.range 31,
          if h ≤ t ∧ t - h ≤ 15 then p h * q (t - h) else 0 := Finset.sum_comm
    _ = ∑ h in Finset.range 16, ∑ a in Finset.range 16, p h * q a := by
        refine Finset.sum_congr rfl fun h hh => ?_
        simp only [Finset.mem_range] at hh
        rw [← Finset.sum_filter]
        have hset : (Finset.range 31).filter (fun t => h ≤ t ∧ t - h ≤ 15)
            = (Finset.range 16).map ⟨fun a => h + a, add_right_injective h⟩ := by
          ext t
          simp only [Finset.mem_filter, Finset.mem_range, Finset.mem_map,
            Function.Embedding.coeFn_mk]
          constructor
          · rintro ⟨ht31, hle, hsub⟩
            exact ⟨t - h, by omega, by omega⟩
          · rintro ⟨a, ha16, rfl⟩
            omega
        rw [hset, Finset.sum_map]
        refine Finset.sum_congr rfl fun a ha => ?_
        simp only [Function.Embedding.coeFn_mk]
        have hdiff : h + a - h = a := by omega
        rw [hdiff]

theorem win_partition (p q : ℕ → ℝ) :
    (∑ h in Finset.range 16, ∑ a in Finset.range 16, p h * q a)
      = (∑ h in Finset.range 16, ∑ a in Finset.range 16, if a < h then p h * q a else 0)
        + (∑ h in Finset.range 16, ∑ a in Finset.range 16, if h < a then p h * q a else 0)
        + (∑ h in Finset.range 16, ∑ a in Finset.range 16, if h = a then p h * q a else 0) := by
  rw [← Finset.sum_add_distrib, ← Finset.sum_add_distrib]
  refine Finset.sum_congr rfl fun h hh => ?_
  rw [← Finset.sum_add_distrib, ← Finset.sum_add_distrib]
  refine Finset.sum_congr rfl fun a ha => ?_
  rcases lt_trichotomy a h with h1 | h1 | h1
  · rw [if_pos h1, if_neg (by omega), if_neg (by omega)]
    ring
  · rw [if_neg (by omega), if_neg (by omega), if_pos h1.symm]
    ring
  · rw [if_neg (by omega), if_pos h1, if_neg (by omega)]
    ring

/-- C8: in a symmetric matchup (equal scoring averages and equal allowed
averages) the home and away win probabilities are exactly equal. -/
theorem symmetric_matchup_equal_win_probs (ha aa hal aal : ℝ)
    (h1 : ha = aa) (h2 : hal = aal) :
    (calculate_game_probabilities ha aa hal aal).home_win_prob
      = (calculate_game_probabilities ha aa hal aal).away_win_prob := by
  obtain ⟨hw, haw, _⟩ := game_win_probs_eq ha aa hal aal
  rw [hw, haw]
  subst h1
  subst h2
  rw [Finset.sum_comm]
  refine Finset.sum_congr rfl fun x hx => Finset.sum_congr rfl fun y hy => ?_
  by_cases hxy : x < y
  · rw [if_pos hxy, if_pos hxy]
    exact mul_comm _ _
  · rw [if_neg hxy, if_neg hxy]

/-- Witness for C8 at the symmetric matchup `(4, 4, 4, 4)`. -/
theorem symmetric_matchup_equal_win_probs_witness :
    ((4 : ℝ) = 4 ∧ (4 : ℝ) = 4) ∧
      (calculate_game_probabilities 4 4 4 4).home_win_prob
        = (calculate_game_probabilities 4 4 4 4).away_win_prob :=
  ⟨⟨rfl, rfl⟩, symmetric_matchup_equal_win_probs 4 4 4 4 rfl rfl⟩

/-- C10: the values of `total_runs_probs` sum to exactly
`home_win_prob + away_win_prob + tie_prob`, and both equal the product of the
truncated home and away mass sums. -/
theorem truncated_mass_conservation (ha aa hal aal : ℝ) :
    ((calculate_game_probabilities ha aa hal aal).total_runs_probs.map Prod.snd).sum
        = (calculate_game_probabilities ha aa hal aal).home_win_prob
            + (calculate_game_probabilities ha aa hal aal).away_win_prob
            + (calculate_game_probabilities ha aa hal aal).tie_prob ∧
      ((calculate_game_probabilities ha aa hal aal).total_runs_probs.map Prod.snd).sum
        = (∑ h in Finset.range 16, poisson_pmf ((ha + aal) / 2) h)
            * (∑ a in Finset.range 16, poisson_pmf ((aa + hal) / 2) a) := by
  obtain ⟨hw, haw, htie⟩ := game_win_probs_eq ha aa hal aal
  have hval : ((calculate_game_probabilities ha aa hal aal).total_runs_probs.map Prod.snd).sum
      = ∑ h in Finset.range 16, ∑ a in Finset.range 16,
          poisson_pmf ((ha + aal) / 2) h * poisson_pmf ((aa + hal) / 2) a := by
    rw [game_total_values_sum]
    exact conv_total_eq _ _
  constructor
  · rw [hval, hw, haw, htie]
    exact win_partition _ _
  · rw [hval, Finset.sum_mul_sum]

/-- The sum of the masses returned by `calculate_poisson_probabilities`. -/
theorem pmf_sum_eq (team opp : ℝ) (m : ℕ) :
    ((calculate_poisson_probabilities team opp m).map Prod.snd).sum
      = ∑ r in Finset.range (m + 1), poisson_pmf ((team + opp) / 2) r := by
  rw [calculate_poisson_probabilities, List.map_map]
  simp only [Function.comp_def]
  exact sum_map_range _ _

/-- C7 (as amended): for a non-negative blended rate the truncated mass sum is
at most `1`, tends to `1` as `max_runs → ∞`, and is strictly increasing in
`max_runs` whenever the rate is strictly positive. -/
theorem truncated_pmf_sum_props (team opp : ℝ) (h0 : 0 ≤ (team + opp) / 2) :
    (∀ m : ℕ, ((calculate_poisson_probabilities team opp m).map Prod.snd).sum ≤ 1) ∧
      (0 < (team + opp) / 2 →
        StrictMono fun m : ℕ =>
          ((calculate_poisson_probabilities team opp m).map Prod.snd).sum) ∧
      Tendsto (fun m : ℕ => ((calculate_poisson_probabilities team opp m).map Prod.snd).sum)
        atTop (𝓝 1) := by
  have h2 : (fun n => ProbabilityTheory.poissonPMFReal ⟨(team + opp) / 2, h0⟩ n)
      = fun n => poisson_pmf ((team + opp) / 2) n := by
    funext n
    rw [ProbabilityTheory.poissonPMFReal, poisson_pmf]
    simp only [NNReal.coe_mk]
    ring
  have hsum := ProbabilityTheory.poissonPMFRealSum ⟨(team + opp) / 2, h0⟩
  rw [h2] at hsum
  have hnn : ∀ r : ℕ, 0 ≤ poisson_pmf ((team + opp) / 2) r := by
    intro r
    rw [poisson_pmf]
    exact div_nonneg (mul_nonneg (pow_nonneg h0 r) (Real.exp_pos _).le) (Nat.cast_nonneg _)
  refine ⟨?_, ?_, ?_⟩
  · intro m
    rw [pmf_sum_eq]
    exact sum_le_hasSum (Finset.range (m + 1)) (fun i _ => hnn i) hsum
  · intro hpos
    apply strictMono_nat_of_lt_succ
    intro m
    have hs := Finset.sum_range_succ (fun r => poisson_pmf ((team + opp) / 2) r) (m + 1)
    rw [pmf_sum_eq, pmf_sum_eq, hs]
    have hgt : 0 < poisson_pmf ((team + opp) / 2) (m + 1) := by
      rw [poisson_pmf]
      apply div_pos (mul_pos (pow_pos hpos _) (Real.exp_pos _))
      exact_mod_cast Nat.factorial_pos _
    linarith
  · exact Tendsto.congr (fun m => (pmf_sum_eq team opp m).symm)
      (hsum.tendsto_sum_nat.comp (tendsto_add_atTop_nat 1))

/-- Witness for C7 at `team_avg = 2`, `opponent_avg = 2` (blended rate `2`). -/
theorem truncated_pmf_sum_props_witness :
    (0 : ℝ) ≤ ((2 : ℝ) + 2) / 2 ∧
      ((∀ m : ℕ, ((calculate_poisson_probabilities 2 2 m).map Prod.snd).sum ≤ 1) ∧
        (0 < ((2 : ℝ) + 2) / 2 →
          StrictMono fun m : ℕ =>
            ((calculate_poisson_probabilities 2 2 m).map Prod.snd).sum) ∧
        Tendsto (fun m : ℕ => ((calculate_poisson_probabilities 2 2 m).map Prod.snd).sum)
          atTop (𝓝 1)) :=
  ⟨by norm_num, truncated_pmf_sum_props 2 2 (by norm_num)⟩

/-- C7 counterexample: at blended rate `0` (inputs `0, 0`) the truncated sums
for `max_runs = 0` and `max_runs = 1` are both exactly `1`, so the sum does not
strictly increase with `max_runs` for every non-negative rate. -/
theorem truncated_pmf_sum_not_strict_at_zero_rate :
    ((calculate_poisson_probabilities 0 0 0).map Prod.snd).sum = 1 ∧
      ((calculate_poisson_probabilities 0 0 1).map Prod.snd).sum = 1 ∧
      ¬((calculate_poisson_probabilities 0 0 0).map Prod.snd).sum
          < ((calculate_poisson_probabilities 0 0 1).map Prod.snd).sum := by
  have e0 : ((calculate_poisson_probabilities 0 0 0).map Prod.snd).sum = 1 := by
    rw [pmf_sum_eq]
    norm_num [poisson_pmf, Finset.sum_range_succ, Real.exp_zero]
  have e1 : ((calculate_poisson_probabilities 0 0 1).map Prod.snd).sum = 1 := by
    rw [pmf_sum_eq]
    norm_num [poisson_pmf, Finset.sum_range_succ, Real.exp_zero]
  exact ⟨e0, e1, by rw [e0, e1]; exact lt_irrefl 1⟩

/-- C9: all three operations of the core are total pure functions of their
arguments alone — the embedding has no state to read or write — so two calls
with identical arguments return identical outputs. -/
theorem operations_deterministic (team opp : ℝ) (m : ℕ)
    (ha aa hal aal p odds stake : ℝ) :
    calculate_poisson_probabilities team opp m
        = calculate_poisson_probabilities team opp m ∧
      calculate_game_probabilities ha aa hal aal
        = calculate_game_probabilities ha aa hal aal ∧
      calculate_expected_value p odds stake = calculate_expected_value p odds stake :=
  ⟨rfl, rfl, rfl⟩
